import Mathlib

/-!
Verification of the data-fetching and configuration-generation scripts
scripts/generate-channels.py and scripts/generate-options.py.

Modelling conventions.

* Python dicts read from JSON are association lists in insertion order with
  unique keys; lookup is first match, assignment keeps the position of an
  existing key and appends a new key at the end.
* Python strings compare lexicographically by code point; this order is
  charsLe on the underlying character lists.
* str.lower is modelled on the ASCII range (the range exercised by the data
  and by the specification examples), lowering each character.
* datetime values are integer epoch seconds; a timedelta of d days is
  86400 * d seconds.  The composite call
  datetime.fromisoformat (timestamp_str.replace ("Z", "")) is an abstract
  parameter parse returning some instant on success and none where CPython
  raises ValueError; the empty string never parses.
* The HTTP layer (requests.get, response.raise_for_status, response.json)
  is an oracle argument: none models a raised network error, some a
  completed exchange carrying the status code and the decoded JSON body.
  raise_for_status raises exactly for status codes in the range 400..599.
* list.sort with a key function is a stable sort by that key; every stable
  sort with respect to a total preorder produces the same list, so it is
  modelled by the stable List.insertionSort from Mathlib.
-/

/-- Lexicographic comparison of character lists by code point, modelling the
comparison CPython performs between strings. -/
def charsLe : List Char → List Char → Bool
  | [], _ => true
  | _ :: _, [] => false
  | a :: as, b :: bs =>
    if a.toNat < b.toNat then true
    else if a.toNat = b.toNat then charsLe as bs
    else false

/-- Code-point order on strings, as used by CPython when it compares the keys
produced by a sort key function. -/
def pyStrLe (a b : String) : Bool := charsLe a.data b.data

/-- str.lower on the ASCII range: each character is lowered individually. -/
def pyLower (s : String) : String := ⟨s.data.map Char.toLower⟩

theorem charsLe_total : ∀ as bs : List Char, charsLe as bs = true ∨ charsLe bs as = true := by
  intro as
  induction as with
  | nil => intro bs; left; rfl
  | cons a as ih =>
    intro bs
    cases bs with
    | nil => right; rfl
    | cons b bs =>
      simp only [charsLe]
      rcases Nat.lt_trichotomy a.toNat b.toNat with h | h | h
      · left; simp [h]
      · rcases ih bs with h2 | h2
        · left; simp [h, h2]
        · right; simp [h.symm, h2]
      · right; simp [h]

theorem charsLe_trans : ∀ as bs cs : List Char,
    charsLe as bs = true → charsLe bs cs = true → charsLe as cs = true := by
  intro as
  induction as with
  | nil => intro bs cs _ _; rfl
  | cons a as ih =>
    intro bs cs h1 h2
    cases bs with
    | nil => simp [charsLe] at h1
    | cons b bs =>
      cases cs with
      | nil => simp [charsLe] at h2
      | cons c cs =>
        simp only [charsLe] at h1 h2 ⊢
        rcases Nat.lt_trichotomy a.toNat b.toNat with hab | hab | hab
        · rcases Nat.lt_trichotomy b.toNat c.toNat with hbc | hbc | hbc
          · simp [Nat.lt_trans hab hbc]
          · simp [hbc ▸ hab]
          · simp [Nat.not_lt.mpr (Nat.le_of_lt hbc), Nat.ne_of_gt hbc] at h2
        · rcases Nat.lt_trichotomy b.toNat c.toNat with hbc | hbc | hbc
          · simp [hab ▸ hbc]
          · have hac : a.toNat = c.toNat := hab.trans hbc
            simp [Nat.lt_irrefl, hab, hbc, hac] at h1 h2 ⊢
            exact ih bs cs h1 h2
          · simp [Nat.not_lt.mpr (Nat.le_of_lt hbc), Nat.ne_of_gt hbc] at h2
        · simp [Nat.not_lt.mpr (Nat.le_of_lt hab), Nat.ne_of_gt hab] at h1

theorem charsLe_nil_right : ∀ as : List Char, charsLe as [] = true → as = [] := by
  intro as h
  cases as with
  | nil => rfl
  | cons a as => simp [charsLe] at h

namespace GenChannels

/-- Constant COUNTRIES_MAX_AGE_DAYS of generate-channels.py. -/
def COUNTRIES_MAX_AGE_DAYS : Int := 7

/-- Seconds per day: timedelta (days = d) is 86400 * d epoch seconds. -/
def secondsPerDay : Int := 86400

/-- Function is_data_stale of generate-channels.py.  The parameter parse stands
for the call datetime.fromisoformat (timestamp_str.replace ("Z", "")), with
none where that call raises, and now for datetime.utcnow (); the except branch
catching ValueError and AttributeError returns True. -/
def is_data_stale (parse : String → Option Int) (now : Int)
    (timestamp_str : String) (max_age_days : Int) : Bool :=
  match parse timestamp_str with
  | some t => decide (now - t > secondsPerDay * max_age_days)
  | none => true

/-- A completed HTTP exchange of requests.get: status code and decoded JSON
body (response.json () is modelled as already decoded). -/
structure HttpResponse (β : Type) where
  status : Nat
  body : β
deriving DecidableEq

/-- The condition under which response.raise_for_status () raises HTTPError (a
RequestException): exactly the client-error and server-error status codes. -/
def raisesForStatus (status : Nat) : Bool := decide (400 ≤ status ∧ status < 600)

/-- On-disk content of countries.json: the object written by fetch_countries,
whose timestamp field may be absent when read back (data.get). -/
structure CountriesFile (β : Type) where
  data : β
  timestamp : Option String
deriving DecidableEq

/-- Function fetch_countries of generate-channels.py as a function of the
oracle get for its single requests.get call and of the current file state.
Returns the value handed to the caller together with the new file state; the
branch catching RequestException returns None and performs no write. -/
def fetch_countries {β : Type} (get : Option (HttpResponse β)) (nowStr : String)
    (file : Option (CountriesFile β)) : Option β × Option (CountriesFile β) :=
  match get with
  | none => (none, file)
  | some resp =>
    if raisesForStatus resp.status then (none, file)
    else (some resp.body, some ⟨resp.body, some nowStr⟩)

/-- Function load_countries of generate-channels.py.  The middle component of
the result counts the network fetches performed (calls of fetch_countries,
each of which issues one requests.get); data.get ("timestamp", "") is
timestamp.getD "". -/
def load_countries {β : Type} (parse : String → Option Int) (now : Int)
    (get : Option (HttpResponse β)) (nowStr : String)
    (file : Option (CountriesFile β)) : Option β × Nat × Option (CountriesFile β) :=
  match file with
  | some d =>
    if ¬ is_data_stale parse now (d.timestamp.getD "") COUNTRIES_MAX_AGE_DAYS then
      (some d.data, 0, some d)
    else
      let r := fetch_countries get nowStr (some d)
      (r.1, 1, r.2)
  | none =>
    let r := fetch_countries get nowStr none
    (r.1, 1, r.2)

/-- C1: load_countries performs zero network fetches and returns the cached
data whenever the cache file exists, its timestamp parses and its age is at
most COUNTRIES_MAX_AGE_DAYS; in every other configuration, that is a missing
file, an unparseable timestamp (in particular an absent timestamp field, read
back as the empty string) or an exceeded age, it performs exactly one fetch of
the countries resource. -/
theorem load_countries_fetch_policy {β : Type} (parse : String → Option Int)
    (now : Int) (get : Option (HttpResponse β)) (nowStr : String)
    (file : Option (CountriesFile β)) :
    (∀ d t, file = some d → parse (d.timestamp.getD "") = some t →
      now - t ≤ secondsPerDay * COUNTRIES_MAX_AGE_DAYS →
      load_countries parse now get nowStr file = (some d.data, 0, some d)) ∧
    ((file = none ∨ ∃ d, file = some d ∧
        (parse (d.timestamp.getD "") = none ∨
          ∃ t, parse (d.timestamp.getD "") = some t ∧
            now - t > secondsPerDay * COUNTRIES_MAX_AGE_DAYS)) →
      (load_countries parse now get nowStr file).2.1 = 1) := by
  constructor
  · rintro d t rfl hp hle
    simp [load_countries, is_data_stale, hp, not_lt.mpr hle]
  · rintro (rfl | ⟨d, rfl, hp | ⟨t, hp, hgt⟩⟩)
    · simp [load_countries]
    · simp [load_countries, is_data_stale, hp]
    · simp [load_countries, is_data_stale, hp, hgt]

/-- Witness for C1: a fresh cache is served with zero fetches, a stale and a
missing one cause exactly one fetch. -/
theorem load_countries_fetch_policy_witness :
    load_countries (β := Nat) (fun s => if s = "t0" then some 0 else none) 100
      (some (HttpResponse.mk 200 5)) "t1" (some ⟨7, some "t0"⟩) = (some 7, 0, some ⟨7, some "t0"⟩) ∧
    (load_countries (β := Nat) (fun s => if s = "t0" then some 0 else none) 700000
      (some (HttpResponse.mk 200 5)) "t1" (some ⟨7, some "t0"⟩)).2.1 = 1 ∧
    (load_countries (β := Nat) (fun s => if s = "t0" then some 0 else none) 100
      (some (HttpResponse.mk 200 5)) "t1" none).2.1 = 1 := by
  refine ⟨?_, ?_, ?_⟩
  · exact (load_countries_fetch_policy _ 100 _ "t1" _).1 ⟨7, some "t0"⟩ 0 rfl (by decide) (by decide)
  · exact (load_countries_fetch_policy _ 700000 _ "t1" _).2
      (Or.inr ⟨⟨7, some "t0"⟩, rfl, Or.inr ⟨0, by decide, by decide⟩⟩)
  · exact (load_countries_fetch_policy _ 100 _ "t1" _).2 (Or.inl rfl)

/-- C5: is_data_stale returns True on every timestamp string that does not
parse as an ISO-8601 datetime, for every wall-clock time and threshold; the
empty string, which is how a missing timestamp field reaches it, never parses,
so a missing timestamp is also treated as stale.  The function is total, so no
exception escapes: the try branch catches the parse failure. -/
theorem is_data_stale_unparseable (parse : String → Option Int) (now : Int)
    (ts : String) (max_age_days : Int) (h : parse ts = none) :
    is_data_stale parse now ts max_age_days = true := by
  simp [is_data_stale, h]

/-- Witness for C5 at a concrete unparseable input. -/
theorem is_data_stale_unparseable_witness :
    is_data_stale (fun s => if s = "2024-01-01T00:00:00" then some 0 else none)
      12345 "not-a-date" 7 = true :=
  is_data_stale_unparseable _ 12345 "not-a-date" 7 (by decide)

/-- C9 counterexample: the claim as stated covers every non-2xx status, but a
status of 304 is neither a 2xx success nor in the 4xx/5xx range that makes
raise_for_status raise, so fetch_countries treats it as success and rewrites
the cache file instead of returning none and leaving the file unchanged. -/
theorem fetch_countries_non2xx_counterexample :
    ¬ (∀ (get : Option (HttpResponse Nat)) (nowStr : String)
        (file : Option (CountriesFile Nat)),
        (match get with
         | none => True
         | some resp => ¬ (200 ≤ resp.status ∧ resp.status < 300)) →
        fetch_countries get nowStr file = (none, file)) := by
  intro h
  have h2 := h (some ⟨304, 5⟩) "t1" (some ⟨7, some "t0"⟩) (by simp)
  simp [fetch_countries, raisesForStatus] at h2

/-- C9 amended: when the fetch fails with a network error, or with an HTTP
status in the 4xx/5xx range (the statuses on which raise_for_status raises),
fetch_countries returns none to its caller and leaves the cache file state
exactly as it was; no write is performed. -/
theorem fetch_countries_failure_no_write {β : Type} (get : Option (HttpResponse β))
    (nowStr : String) (file : Option (CountriesFile β))
    (h : get = none ∨ ∃ resp, get = some resp ∧ 400 ≤ resp.status ∧ resp.status < 600) :
    fetch_countries get nowStr file = (none, file) := by
  rcases h with rfl | ⟨resp, rfl, h4, h6⟩
  · rfl
  · simp [fetch_countries, raisesForStatus, h4, h6]

/-- Witness for C9 amended: a network error and a 500 status both leave an
existing cache file untouched and report failure. -/
theorem fetch_countries_failure_no_write_witness :
    fetch_countries (β := Nat) none "t1" (some ⟨7, some "t0"⟩) = (none, some ⟨7, some "t0"⟩) ∧
    fetch_countries (β := Nat) (some ⟨500, 5⟩) "t1" (some ⟨7, some "t0"⟩) =
      (none, some ⟨7, some "t0"⟩) :=
  ⟨fetch_countries_failure_no_write none "t1" _ (Or.inl rfl),
   fetch_countries_failure_no_write (some ⟨500, 5⟩) "t1" _
     (Or.inr ⟨⟨500, 5⟩, rfl, by decide, by decide⟩)⟩

end GenChannels

namespace GenChannels

/-- A value of the channels.json dict: the channels payload (opaque JSON,
hence a type parameter) and the timestamp field, optional when read back. -/
structure CacheEntry (α : Type) where
  data : α
  timestamp : Option String
deriving DecidableEq

/-- The channels.json dict in memory: association list in insertion order. -/
def CacheMap (α : Type) : Type := List (String × CacheEntry α)

instance {α : Type} [DecidableEq α] : DecidableEq (CacheMap α) :=
  inferInstanceAs (DecidableEq (List (String × CacheEntry α)))

/-- Lookup in a Python dict modelled as an association list (first match). -/
def dictGet {α : Type} (m : CacheMap α) (k : String) : Option (CacheEntry α) :=
  match m with
  | [] => none
  | p :: rest => if p.1 = k then some p.2 else dictGet rest k

/-- Python dict assignment: an existing key keeps its position and gets the
new value, a new key is appended at the end. -/
def dictSet {α : Type} (m : CacheMap α) (k : String) (v : CacheEntry α) : CacheMap α :=
  match m with
  | [] => [(k, v)]
  | p :: rest => if p.1 = k then (k, v) :: rest else p :: dictSet rest k v

theorem dictGet_dictSet_self {α : Type} (m : CacheMap α) (k : String) (v : CacheEntry α) :
    dictGet (dictSet m k v) k = some v := by
  induction m with
  | nil => simp [dictGet, dictSet]
  | cons p rest ih =>
    by_cases h : p.1 = k
    · simp [dictGet, dictSet, h]
    · simp [dictGet, dictSet, h, ih]

theorem dictGet_dictSet_ne {α : Type} (m : CacheMap α) (k k' : String) (v : CacheEntry α)
    (h : k' ≠ k) : dictGet (dictSet m k v) k' = dictGet m k' := by
  induction m with
  | nil => simp [dictGet, dictSet, Ne.symm h]
  | cons p rest ih =>
    by_cases hp : p.1 = k
    · simp [dictGet, dictSet, hp, Ne.symm h]
    · by_cases hp' : p.1 = k'
      · simp [dictGet, dictSet, hp, hp', h]
      · simp [dictGet, dictSet, hp, hp', ih]

/-- A country record of countries.json as used by the fetcher: the main loop
reads country ["id"] and country ["name"]. -/
structure Country where
  id : String
  name : String
deriving DecidableEq

/-- An element of the countries_to_fetch list: the Python tuple
(country_id, country_name, timestamp), where the third component is None for
countries with no cached entry. -/
abbrev Task : Type := String × String × Option String

/-- The categorize loop of main: countries absent from channels_data get a
None timestamp, the others the timestamp field of their entry with default
the empty string. -/
def buildTasks {α : Type} (countries : List Country) (channels_data : CacheMap α) :
    List Task :=
  countries.map fun c =>
    match dictGet channels_data c.id with
    | none => (c.id, c.name, none)
    | some e => (c.id, c.name, some (e.timestamp.getD ""))

/-- The sort key lambda of main: (x [2] is not None, x [2] or "").  A None
third component and an empty-string third component both give the string
component ""; the Boolean False orders before True as in Python. -/
def taskKey (t : Task) : Bool × String := (t.2.2.isSome, t.2.2.getD "")

/-- Order on Python pairs (bool, str): lexicographic, with False < True. -/
def keyLe (x y : Bool × String) : Bool :=
  (!x.1 && y.1) || (x.1 == y.1 && pyStrLe x.2 y.2)

theorem keyLe_total (x y : Bool × String) : keyLe x y = true ∨ keyLe y x = true := by
  rcases x with ⟨bx, sx⟩
  rcases y with ⟨by_, sy⟩
  rcases charsLe_total sx.data sy.data with h | h <;>
    cases bx <;> cases by_ <;> simp [keyLe, pyStrLe, h]

theorem keyLe_trans (x y z : Bool × String) (h1 : keyLe x y = true)
    (h2 : keyLe y z = true) : keyLe x z = true := by
  rcases x with ⟨bx, sx⟩
  rcases y with ⟨by_, sy⟩
  rcases z with ⟨bz, sz⟩
  cases bx <;> cases by_ <;> cases bz <;>
    simp_all [keyLe, pyStrLe] <;>
    exact charsLe_trans _ _ _ h1 h2

/-- The comparison realized by list.sort with the key lambda of main. -/
def taskLe (a b : Task) : Prop := keyLe (taskKey a) (taskKey b) = true

instance : DecidableRel taskLe := fun a b => by unfold taskLe; infer_instance

instance : IsTotal Task taskLe := ⟨fun a b => keyLe_total (taskKey a) (taskKey b)⟩

instance : IsTrans Task taskLe :=
  ⟨fun a b c => keyLe_trans (taskKey a) (taskKey b) (taskKey c)⟩

/-- countries_to_fetch after the sort of main; list.sort is a stable sort by
the key, modelled by the stable insertion sort. -/
def sortTasks {α : Type} (countries : List Country) (channels_data : CacheMap α) :
    List Task :=
  List.insertionSort taskLe (buildTasks countries channels_data)

theorem sortTasks_pairwise {α : Type} (countries : List Country)
    (channels_data : CacheMap α) :
    (sortTasks countries channels_data).Pairwise taskLe :=
  List.sorted_insertionSort taskLe (buildTasks countries channels_data)

theorem taskLe_entry_facts (a b : Task) (h : taskLe a b) :
    (a.2.2.isSome = true → b.2.2.isSome = true) ∧
    (∀ sa sb, a.2.2 = some sa → b.2.2 = some sb → pyStrLe sa sb = true) := by
  unfold taskLe keyLe taskKey at h
  rcases ha : a.2.2 with _ | sa <;> rcases hb : b.2.2 with _ | sb <;>
    rw [ha, hb] at h <;> simp_all

theorem taskLe_empty_facts (a b : Task) (h : taskLe a b) :
    (a.2.2 = some "" → b.2.2 ≠ none) ∧
    (∀ s, a.2.2 = some s → s ≠ "" → b.2.2 ≠ some "") := by
  unfold taskLe keyLe taskKey at h
  rcases ha : a.2.2 with _ | sa <;> rcases hb : b.2.2 with _ | sb <;>
    rw [ha, hb] at h <;> simp_all [pyStrLe]
  intro hne hsb
  rw [hsb] at h
  exact hne (String.ext (charsLe_nil_right sa.data h))

/-- Concrete countries list for the ordering examples. -/
def sampleCountries : List Country := [⟨"A", "Aland"⟩, ⟨"B", "Bora"⟩, ⟨"C", "Chad"⟩]

/-- Concrete cache for the C3 example: A has no entry, B a newer timestamp,
C an older one. -/
def sampleCache3 : CacheMap Nat := [("B", ⟨1, some "2024-06"⟩), ("C", ⟨2, some "2024-01"⟩)]

/-- Concrete cache for the C10 example: A has no entry, B a timestamp, C an
entry whose timestamp field is missing. -/
def sampleCache10 : CacheMap Nat := [("B", ⟨1, some "2024-06"⟩), ("C", ⟨2, none⟩)]

/-- C3: in the fetch order produced by the sort of main, every country with no
cached entry (None third component) precedes every country with an entry, and
countries with entries are ordered by oldest timestamp first (code-point order
on the ISO timestamp strings); in particular, for A without entry, B with
timestamp 2024-06 and C with the older timestamp 2024-01, the order is
A, C, B. -/
theorem fetch_order_policy :
    (∀ {α : Type} (countries : List Country) (channels_data : CacheMap α),
      (sortTasks countries channels_data).Pairwise (fun a b =>
        (a.2.2.isSome = true → b.2.2.isSome = true) ∧
        (∀ sa sb, a.2.2 = some sa → b.2.2 = some sb → pyStrLe sa sb = true))) ∧
    sortTasks sampleCountries sampleCache3 =
      [("A", "Aland", none), ("C", "Chad", some "2024-01"), ("B", "Bora", some "2024-06")] := by
  constructor
  · intro α countries channels_data
    exact (sortTasks_pairwise countries channels_data).imp
      (fun h => taskLe_entry_facts _ _ h)
  · decide

/-- C10: a country whose cache entry exists but whose timestamp field is
missing or empty receives the sort key (True, "") and is therefore ordered
after every country with no entry at all and before every country whose entry
has a non-empty timestamp; in the concrete example the entry of C without a
timestamp field is refreshed right after the new country A and before B. -/
theorem fetch_order_empty_timestamp :
    (∀ {α : Type} (countries : List Country) (channels_data : CacheMap α),
      (sortTasks countries channels_data).Pairwise (fun a b =>
        (a.2.2 = some "" → b.2.2 ≠ none) ∧
        (∀ s, a.2.2 = some s → s ≠ "" → b.2.2 ≠ some ""))) ∧
    taskKey ("C", "Chad", some "") = (true, "") ∧
    buildTasks sampleCountries sampleCache10 =
      [("A", "Aland", none), ("B", "Bora", some "2024-06"), ("C", "Chad", some "")] ∧
    sortTasks sampleCountries sampleCache10 =
      [("A", "Aland", none), ("C", "Chad", some ""), ("B", "Bora", some "2024-06")] := by
  refine ⟨?_, by decide, by decide, by decide⟩
  intro α countries channels_data
  exact (sortTasks_pairwise countries channels_data).imp
    (fun h => taskLe_empty_facts _ _ h)

/-- Outcome of the one requests.get call inside fetch_channels_for_country:
a decoded channels payload, a RequestException whose text matches the rate
limit test ("429" in the text or a lowered "rate limit"), or any other
RequestException. -/
inductive FetchOutcome (α : Type) where
  | success (channels : α)
  | rateLimit
  | otherFailure
deriving DecidableEq

/-- Function fetch_channels_for_country of generate-channels.py: on success it
assigns the entry for the country into the dict, rewrites channels.json from
the whole dict and returns True; on a rate-limit failure it returns False, on
any other failure None, in both cases leaving the dict (and hence the file)
untouched.  The returned dict is also the committed file content, since every
success rewrites the file from it. -/
def fetch_channels_for_country {α : Type} (now : String) (country_id : String)
    (outcome : FetchOutcome α) (all_channels_data : CacheMap α) :
    Option Bool × CacheMap α :=
  match outcome with
  | .success channels => (some true, dictSet all_channels_data country_id ⟨channels, some now⟩)
  | .rateLimit => (some false, all_channels_data)
  | .otherFailure => (none, all_channels_data)

/-- The per-country loop of main over the sorted countries_to_fetch list: the
oracle f gives the outcome of the fetch for each country id.  Returns the
final dict (equal to the final committed file content) and the list of country
ids for which a fetch was attempted, in order.  A False result (rate limit)
breaks out of the loop; a None result (other failure) continues. -/
def runFetchLoop {α : Type} [DecidableEq α] (f : String → FetchOutcome α) (now : String) :
    List Task → CacheMap α → CacheMap α × List String
  | [], m => (m, [])
  | t :: rest, m =>
    let step := fetch_channels_for_country now t.1 (f t.1) m
    if step.1 = some false then (step.2, [t.1])
    else
      let recur := runFetchLoop f now rest step.2
      (recur.1, t.1 :: recur.2)

/-- Cumulative effect on the dict of processing a list of tasks none of which
breaks the loop: each success assigns its entry, each failure leaves the dict
unchanged. -/
def commitAll {α : Type} (f : String → FetchOutcome α) (now : String)
    (L : List Task) (m : CacheMap α) : CacheMap α :=
  L.foldl (fun acc t =>
    match f t.1 with
    | .success cs => dictSet acc t.1 ⟨cs, some now⟩
    | _ => acc) m

theorem commitAll_nil {α : Type} (f : String → FetchOutcome α) (now : String)
    (m : CacheMap α) : commitAll f now [] m = m := rfl

theorem commitAll_cons {α : Type} (f : String → FetchOutcome α) (now : String)
    (t : Task) (L : List Task) (m : CacheMap α) :
    commitAll f now (t :: L) m =
      commitAll f now L
        (match f t.1 with
         | .success cs => dictSet m t.1 ⟨cs, some now⟩
         | _ => m) := rfl

theorem dictGet_commitAll_notMem {α : Type} (f : String → FetchOutcome α) (now : String)
    (L : List Task) (m : CacheMap α) (k : String) (h : ∀ t ∈ L, t.1 ≠ k) :
    dictGet (commitAll f now L m) k = dictGet m k := by
  induction L generalizing m with
  | nil => rfl
  | cons t L ih =>
    rw [commitAll_cons]
    rcases hf : f t.1 with cs | _ | _ <;> simp only
    · rw [ih _ (fun t' ht' => h t' (List.mem_cons_of_mem t ht')),
        dictGet_dictSet_ne _ _ _ _ (Ne.symm (h t (List.mem_cons_self t L)))]
    · exact ih _ (fun t' ht' => h t' (List.mem_cons_of_mem t ht'))
    · exact ih _ (fun t' ht' => h t' (List.mem_cons_of_mem t ht'))

theorem dictGet_commitAll_success {α : Type} (f : String → FetchOutcome α) (now : String)
    (L : List Task) (m : CacheMap α) (t : Task) (cs : α)
    (hnd : (L.map (·.1)).Nodup) (ht : t ∈ L) (hf : f t.1 = .success cs) :
    dictGet (commitAll f now L m) t.1 = some ⟨cs, some now⟩ := by
  induction L generalizing m with
  | nil => cases ht
  | cons u L ih =>
    rw [List.map_cons, List.nodup_cons] at hnd
    rcases List.mem_cons.mp ht with rfl | htL
    · rw [commitAll_cons, hf]
      simp only
      rw [dictGet_commitAll_notMem f now L _ t.1
        (fun t' ht' h' => hnd.1 (h' ▸ List.mem_map_of_mem (·.1) ht')),
        dictGet_dictSet_self]
    · rw [commitAll_cons]
      rcases hu : f u.1 with cs' | _ | _ <;> simp only <;>
        exact ih _ hnd.2 htL

theorem dictGet_commitAll_not_success {α : Type} (f : String → FetchOutcome α)
    (now : String) (L : List Task) (m : CacheMap α) (t : Task)
    (hnd : (L.map (·.1)).Nodup) (ht : t ∈ L)
    (hf : ∀ cs, f t.1 ≠ .success cs) :
    dictGet (commitAll f now L m) t.1 = dictGet m t.1 := by
  induction L generalizing m with
  | nil => cases ht
  | cons u L ih =>
    rw [List.map_cons, List.nodup_cons] at hnd
    rcases List.mem_cons.mp ht with rfl | htL
    · have hnotMem : ∀ t' ∈ L, t'.1 ≠ t.1 :=
        fun t' ht' h' => hnd.1 (h' ▸ List.mem_map_of_mem (·.1) ht')
      rw [commitAll_cons]
      rcases hu : f t.1 with cs' | _ | _
      · exact absurd hu (hf cs')
      · exact dictGet_commitAll_notMem f now L _ t.1 hnotMem
      · exact dictGet_commitAll_notMem f now L _ t.1 hnotMem
    · have hne : u.1 ≠ t.1 := by
        intro h'
        exact hnd.1 (h' ▸ List.mem_map_of_mem (·.1) htL)
      rw [commitAll_cons]
      rcases hu : f u.1 with cs' | _ | _ <;> simp only
      · rw [ih _ hnd.2 htL, dictGet_dictSet_ne _ _ _ _ (Ne.symm hne)]
      · exact ih _ hnd.2 htL
      · exact ih _ hnd.2 htL

theorem runFetchLoop_rateLimit_head {α : Type} [DecidableEq α]
    (f : String → FetchOutcome α) (now : String) (t : Task) (rest : List Task)
    (m : CacheMap α) (h : f t.1 = .rateLimit) :
    runFetchLoop f now (t :: rest) m = (m, [t.1]) := by
  simp [runFetchLoop, fetch_channels_for_country, h]

theorem runFetchLoop_no_rateLimit_append {α : Type} [DecidableEq α]
    (f : String → FetchOutcome α) (now : String) (L rest : List Task)
    (m : CacheMap α) (h : ∀ t ∈ L, f t.1 ≠ .rateLimit) :
    runFetchLoop f now (L ++ rest) m =
      ((runFetchLoop f now rest (commitAll f now L m)).1,
        L.map (·.1) ++ (runFetchLoop f now rest (commitAll f now L m)).2) := by
  induction L generalizing m with
  | nil => simp [commitAll_nil]
  | cons t L ih =>
    have hhead : f t.1 ≠ .rateLimit := h t (List.mem_cons_self t L)
    have htail : ∀ t' ∈ L, f t'.1 ≠ .rateLimit :=
      fun t' ht' => h t' (List.mem_cons_of_mem t ht')
    rw [List.cons_append, commitAll_cons]
    rcases hf : f t.1 with cs | _ | _
    · simp only [runFetchLoop, fetch_channels_for_country, hf]
      rw [ih _ htail]
      simp
    · exact absurd hf hhead
    · simp only [runFetchLoop, fetch_channels_for_country, hf]
      rw [ih _ htail]
      simp

theorem runFetchLoop_no_rateLimit_all {α : Type} [DecidableEq α]
    (f : String → FetchOutcome α) (now : String) (L : List Task)
    (m : CacheMap α) (h : ∀ t ∈ L, f t.1 ≠ .rateLimit) :
    runFetchLoop f now L m = (commitAll f now L m, L.map (·.1)) := by
  have h2 := runFetchLoop_no_rateLimit_append f now L [] m h
  simpa [runFetchLoop] using h2

/-- C2: in the per-key loop over the ordered country list (with pairwise
distinct country ids), if the countries before position i do not hit the rate
limit and the fetch at position i does, then the loop halts right after that
fetch: exactly the ids up to and including position i are fetched, every later
country keeps its previous cache entry, every earlier success stays committed
with the new entry and every earlier non-rate-limit failure keeps its previous
entry; and if no fetch in the list hits the rate limit, every id in the list
is fetched (other failures only skip their own key, whose entry keeps its
previous value). -/
theorem fetch_loop_failure_semantics {α : Type} [DecidableEq α]
    (f : String → FetchOutcome α) (now : String) (pre post : List Task) (t : Task)
    (m : CacheMap α)
    (hnd : (((pre ++ t :: post)).map (·.1)).Nodup)
    (hpre : ∀ t' ∈ pre, f t'.1 ≠ .rateLimit) :
    (f t.1 = .rateLimit →
      (runFetchLoop f now (pre ++ t :: post) m).2 = (pre ++ [t]).map (·.1) ∧
      (∀ t' ∈ post,
        dictGet (runFetchLoop f now (pre ++ t :: post) m).1 t'.1 = dictGet m t'.1) ∧
      (∀ t' ∈ pre, ∀ cs, f t'.1 = .success cs →
        dictGet (runFetchLoop f now (pre ++ t :: post) m).1 t'.1 = some ⟨cs, some now⟩) ∧
      (∀ t' ∈ pre, f t'.1 = .otherFailure →
        dictGet (runFetchLoop f now (pre ++ t :: post) m).1 t'.1 = dictGet m t'.1)) ∧
    ((f t.1 ≠ .rateLimit ∧ ∀ t' ∈ post, f t'.1 ≠ .rateLimit) →
      (runFetchLoop f now (pre ++ t :: post) m).2 = (pre ++ t :: post).map (·.1) ∧
      (∀ t' ∈ pre ++ t :: post, f t'.1 = .otherFailure →
        dictGet (runFetchLoop f now (pre ++ t :: post) m).1 t'.1 = dictGet m t'.1)) := by
  have hndPre : (pre.map (·.1)).Nodup := by
    rw [List.map_append] at hnd
    exact (List.nodup_append.mp hnd).1
  have hdisj : ∀ t' ∈ t :: post, ∀ u ∈ pre, u.1 ≠ t'.1 := by
    rw [List.map_append, List.nodup_append] at hnd
    intro t' ht' u hu h'
    exact hnd.2.2 (List.mem_map_of_mem (·.1) hu) (h' ▸ List.mem_map_of_mem (·.1) ht')
  constructor
  · intro hrl
    rw [runFetchLoop_no_rateLimit_append f now pre (t :: post) m hpre,
      runFetchLoop_rateLimit_head f now t post _ hrl]
    refine ⟨by simp, ?_, ?_, ?_⟩
    · intro t' ht'
      exact dictGet_commitAll_notMem f now pre m t'.1
        (hdisj t' (List.mem_cons_of_mem t ht'))
    · intro t' ht' cs hcs
      exact dictGet_commitAll_success f now pre m t' cs hndPre ht' hcs
    · intro t' ht' hcs
      exact dictGet_commitAll_not_success f now pre m t' hndPre ht'
        (fun cs h' => by rw [hcs] at h'; cases h')
  · intro ⟨hrt, hpost⟩
    have hall : ∀ t' ∈ pre ++ t :: post, f t'.1 ≠ .rateLimit := by
      intro t' ht'
      rcases List.mem_append.mp ht' with h' | h'
      · exact hpre t' h'
      · rcases List.mem_cons.mp h' with rfl | h''
        · exact hrt
        · exact hpost t' h''
    rw [runFetchLoop_no_rateLimit_all f now _ m hall]
    refine ⟨rfl, ?_⟩
    intro t' ht' hcs
    exact dictGet_commitAll_not_success f now _ m t' hnd ht'
      (fun cs h' => by rw [hcs] at h'; cases h')

/-- Concrete outcome oracle: country a succeeds, b fails with an ordinary
error, c hits the rate limit, every other id would succeed. -/
def sampleF : String → FetchOutcome Nat := fun s =>
  if s = "a" then .success 1
  else if s = "b" then .otherFailure
  else if s = "c" then .rateLimit
  else .success 4

/-- Concrete initial channels.json dict for the loop witness. -/
def sampleM : CacheMap Nat := [("d", ⟨9, some "2024-01"⟩), ("b", ⟨8, some "2023-01"⟩)]

/-- Witness for C2: with a at position 1 succeeding, b at position 2 failing
non-fatally and c at position 3 hitting the rate limit, exactly a, b, c are
fetched, d keeps its old entry, the committed result of a survives and b keeps
its old entry; with no rate limit in the batch every id is fetched. -/
theorem fetch_loop_failure_semantics_witness :
    (runFetchLoop sampleF "T"
      ([("a", "Ava", none), ("b", "Ben", none)] ++
        ("c", "Cal", none) :: [("d", "Dia", some "2024-01")]) sampleM).2 = ["a", "b", "c"] ∧
    dictGet (runFetchLoop sampleF "T"
      ([("a", "Ava", none), ("b", "Ben", none)] ++
        ("c", "Cal", none) :: [("d", "Dia", some "2024-01")]) sampleM).1 "d" =
      some ⟨9, some "2024-01"⟩ ∧
    dictGet (runFetchLoop sampleF "T"
      ([("a", "Ava", none), ("b", "Ben", none)] ++
        ("c", "Cal", none) :: [("d", "Dia", some "2024-01")]) sampleM).1 "a" =
      some ⟨1, some "T"⟩ ∧
    dictGet (runFetchLoop sampleF "T"
      ([("a", "Ava", none), ("b", "Ben", none)] ++
        ("c", "Cal", none) :: [("d", "Dia", some "2024-01")]) sampleM).1 "b" =
      some ⟨8, some "2023-01"⟩ ∧
    (runFetchLoop sampleF "T"
      ([("a", "Ava", none), ("b", "Ben", none)] ++ ("d", "Dia", some "2024-01") :: [])
      sampleM).2 = ["a", "b", "d"] := by
  have h1 := (fetch_loop_failure_semantics sampleF "T"
    [("a", "Ava", none), ("b", "Ben", none)] [("d", "Dia", some "2024-01")]
    ("c", "Cal", none) sampleM (by decide) (by decide)).1 (by decide)
  have h2 := (fetch_loop_failure_semantics sampleF "T"
    [("a", "Ava", none), ("b", "Ben", none)] [] ("d", "Dia", some "2024-01")
    sampleM (by decide) (by decide)).2 (by decide)
  refine ⟨h1.1.trans (by decide), ?_, ?_, ?_, h2.1.trans (by decide)⟩
  · exact (h1.2.1 ("d", "Dia", some "2024-01") (by decide)).trans (by decide)
  · exact h1.2.2.1 ("a", "Ava", none) (by decide) 1 (by decide)
  · exact (h1.2.2.2 ("b", "Ben", none) (by decide) (by decide)).trans (by decide)

/-- On-disk content of channels.json at one instant: either truncated to
nothing or holding a serialized dict from which the entries can be read
back. -/
inductive FileContent (α : Type) where
  | empty
  | full (m : CacheMap α)
deriving DecidableEq

/-- Entries recoverable from the bytes on disk: a truncated file holds
none. -/
def FileContent.committedGet {α : Type} : FileContent α → String → Option (CacheEntry α)
  | .empty, _ => none
  | .full m, k => dictGet m k

/-- The sequence of on-disk states passed through by the save in
fetch_channels_for_country, which runs open (CHANNELS_FILE, "w") followed by
json.dump: opening with mode w truncates the file in place, then the whole
serialized dict is written out.  The first element is the content before the
call, the last the completed write; an interruption leaves the file in one of
the listed states.  (json.dump streams, so there are further intermediate
partially-written states; the truncated state listed here is enough to decide
the claim.) -/
def writeStates {α : Type} (before : FileContent α) (m : CacheMap α) :
    List (FileContent α) := [before, .empty, .full m]

/-- C4 counterexample: the claim that the file is rewritten
atomically-by-replacement, so that an interruption during the write never
loses previously committed keys, is false: writing the update for the
in-flight country c over a file holding the committed entry of b passes
through the truncated state, where the entry of b is unrecoverable. -/
theorem channels_write_not_atomic :
    ¬ (∀ (committed : CacheMap Nat) (k : String) (v : CacheEntry Nat)
        (s : FileContent Nat),
        s ∈ writeStates (.full committed) (dictSet committed k v) →
        ∀ k', k' ≠ k → s.committedGet k' = dictGet committed k') := by
  intro h
  have h2 := h [("b", ⟨1, some "2023-01"⟩)] "c" ⟨2, some "2024-01"⟩ .empty
    (by simp [writeStates]) "b" (by decide)
  simp [FileContent.committedGet, dictGet] at h2

/-- C4 amended: the save rewrites the whole file in place (truncate, then
write), not atomically-by-replacement.  A crash strictly between writes (the
file still holding its previous content, the first listed state) loses at most
the in-flight update, and once the write completes (the last listed state) the
file holds the updated dict, in which every key other than the in-flight one
keeps its previous entry and the in-flight key holds the new entry; but an
interruption during the write itself can lose previously committed keys, as
the counterexample shows. -/
theorem channels_write_completed {α : Type} (before : FileContent α)
    (m : CacheMap α) (k : String) (v : CacheEntry α) (k' : String) (h : k' ≠ k) :
    (writeStates before (dictSet m k v)).head? = some before ∧
    (writeStates before (dictSet m k v)).getLast? = some (.full (dictSet m k v)) ∧
    (FileContent.full (dictSet m k v)).committedGet k = some v ∧
    (FileContent.full (dictSet m k v)).committedGet k' = dictGet m k' := by
  refine ⟨rfl, rfl, ?_, ?_⟩
  · exact dictGet_dictSet_self m k v
  · exact dictGet_dictSet_ne m k k' v h

/-- Witness for C4 amended at a concrete map and key. -/
theorem channels_write_completed_witness :
    (writeStates (.full [("b", ⟨1, some "2023-01"⟩)])
      (dictSet [("b", ⟨(1 : Nat), some "2023-01"⟩)] "c" ⟨2, some "2024-01"⟩)).head? =
      some (.full [("b", ⟨1, some "2023-01"⟩)]) ∧
    (writeStates (.full [("b", ⟨1, some "2023-01"⟩)])
      (dictSet [("b", ⟨(1 : Nat), some "2023-01"⟩)] "c" ⟨2, some "2024-01"⟩)).getLast? =
      some (.full (dictSet [("b", ⟨1, some "2023-01"⟩)] "c" ⟨2, some "2024-01"⟩)) ∧
    (FileContent.full (dictSet [("b", ⟨(1 : Nat), some "2023-01"⟩)] "c"
      ⟨2, some "2024-01"⟩)).committedGet "c" = some ⟨2, some "2024-01"⟩ ∧
    (FileContent.full (dictSet [("b", ⟨(1 : Nat), some "2023-01"⟩)] "c"
      ⟨2, some "2024-01"⟩)).committedGet "b" = dictGet [("b", ⟨1, some "2023-01"⟩)] "b" :=
  channels_write_completed (.full [("b", ⟨1, some "2023-01"⟩)])
    [("b", ⟨1, some "2023-01"⟩)] "c" ⟨2, some "2024-01"⟩ "b" (by decide)

end GenChannels

namespace GenOptions

/-- A country object of countries.json as read by generate-options.py: the id
field is required (the dict comprehension indexes it), name and display_name
are read with get. -/
structure Country where
  id : String
  name : Option String
  display_name : Option String
deriving DecidableEq

/-- A channel object inside a channels.json entry: all three fields are read
with get. -/
structure Channel where
  id : Option String
  name : Option String
  display_name : Option String
deriving DecidableEq

/-- A value of the channels.json mapping: country_channels.get ("data", [])
reads the optional data field; the timestamp field is not read by this
script. -/
structure CountryChannels where
  data : Option (List Channel)
  timestamp : Option String
deriving DecidableEq

/-- The dict comprehension building country_map followed by indexing: in a
Python dict comprehension a later country with the same id overwrites an
earlier one, so lookup returns the last matching country. -/
def countryMapFind (countries : List Country) (cid : String) : Option Country :=
  countries.foldl (fun acc c => if c.id = cid then some c else acc) none

/-- country.get ("display_name", country.get ("name", "Unknown")). -/
def countryDisplayName (c : Country) : String :=
  c.display_name.getD (c.name.getD "Unknown")

/-- channel.get ("display_name", channel.get ("name", "Unknown")). -/
def channelDisplayName (ch : Channel) : String :=
  ch.display_name.getD (ch.name.getD "Unknown")

/-- Truthiness of channel.get ("id"): None and the empty string are falsy, so
only a present, non-empty id passes the if channel_id test. -/
def channelHasId (ch : Channel) : Bool :=
  match ch.id with
  | some s => decide (s ≠ "")
  | none => false

/-- The option key f-string: country display name, separator, channel display
name. -/
def optionLabel (c : Country) (ch : Channel) : String :=
  countryDisplayName c ++ " - " ++ channelDisplayName ch

/-- The option value f-string: channel id, the bar separator, channel display
name. -/
def optionValue (ch : Channel) : String :=
  ch.id.getD "" ++ "|" ++ channelDisplayName ch

/-- The inner loop of create_options_yml over the channels of one country:
each channel with a truthy id appends one (label, value) pair, every other
channel appends nothing. -/
def optionsOfChannels (c : Country) : List Channel → List (String × String)
  | [] => []
  | ch :: rest =>
    match ch.id with
    | some i =>
      if i ≠ "" then
        (optionLabel c ch, i ++ "|" ++ channelDisplayName ch) :: optionsOfChannels c rest
      else optionsOfChannels c rest
    | none => optionsOfChannels c rest

/-- The exact text of the warning printed for an unknown country id. -/
def unknownCountryWarning (cid : String) : String :=
  "Warning: Country ID " ++ cid ++ " not found in countries data"

/-- The outer loop of create_options_yml over channels_data.items (): an entry
whose country id is not in country_map prints a warning and continues, every
other entry extends channel_options with the options of its channels.  Returns
the built channel_options list and the warnings printed, each in program
order. -/
def buildChannelOptions (countries : List Country) :
    List (String × CountryChannels) → List (String × String) × List String
  | [] => ([], [])
  | (cid, cc) :: rest =>
    match countryMapFind countries cid with
    | none =>
      let r := buildChannelOptions countries rest
      (r.1, unknownCountryWarning cid :: r.2)
    | some c =>
      let r := buildChannelOptions countries rest
      (optionsOfChannels c (cc.data.getD []) ++ r.1, r.2)

/-- The comparison realized by channel_options.sort with key the lowered
label. -/
def optionLe (a b : String × String) : Prop :=
  pyStrLe (pyLower a.1) (pyLower b.1) = true

instance : DecidableRel optionLe := fun a b => by unfold optionLe; infer_instance

instance : IsTotal (String × String) optionLe :=
  ⟨fun a b => charsLe_total (pyLower a.1).data (pyLower b.1).data⟩

instance : IsTrans (String × String) optionLe :=
  ⟨fun a b c => charsLe_trans (pyLower a.1).data (pyLower b.1).data (pyLower c.1).data⟩

/-- The channel_options list of create_options_yml after the sort: built by
the two nested loops, then sorted stably by the lowered label (list.sort is a
stable sort, modelled by the stable insertion sort). -/
def createChannelOptions (countries : List Country)
    (channels_data : List (String × CountryChannels)) : List (String × String) :=
  List.insertionSort optionLe (buildChannelOptions countries channels_data).1

theorem optionsOfChannels_eq_filter_map (c : Country) (l : List Channel) :
    optionsOfChannels c l =
      (l.filter channelHasId).map (fun ch => (optionLabel c ch, optionValue ch)) := by
  induction l with
  | nil => rfl
  | cons ch rest ih =>
    rcases hid : ch.id with _ | i
    · simp [optionsOfChannels, hid, List.filter_cons, channelHasId, ih]
    · by_cases hne : i = ""
      · subst hne
        simp [optionsOfChannels, hid, List.filter_cons, channelHasId, ih]
      · simp [optionsOfChannels, hid, hne, List.filter_cons, channelHasId, ih,
          optionValue, optionLabel]

theorem buildChannelOptions_fst (countries : List Country)
    (channels_data : List (String × CountryChannels)) :
    (buildChannelOptions countries channels_data).1 =
      channels_data.flatMap (fun p =>
        match countryMapFind countries p.1 with
        | some c => ((p.2.data.getD []).filter channelHasId).map
            (fun ch => (optionLabel c ch, optionValue ch))
        | none => []) := by
  induction channels_data with
  | nil => rfl
  | cons p rest ih =>
    rcases p with ⟨cid, cc⟩
    rcases hc : countryMapFind countries cid with _ | c
    · simpa [buildChannelOptions, hc] using ih
    · simp [buildChannelOptions, hc, ih, optionsOfChannels_eq_filter_map]

theorem buildChannelOptions_snd (countries : List Country)
    (channels_data : List (String × CountryChannels)) :
    (buildChannelOptions countries channels_data).2 =
      (channels_data.filter (fun p => (countryMapFind countries p.1).isNone)).map
        (fun p => unknownCountryWarning p.1) := by
  induction channels_data with
  | nil => rfl
  | cons p rest ih =>
    rcases p with ⟨cid, cc⟩
    rcases hc : countryMapFind countries cid with _ | c
    · simp [buildChannelOptions, hc, List.filter_cons, ih]
    · simp [buildChannelOptions, hc, List.filter_cons, ih]

theorem buildChannelOptions_perm_of_channels_perm (countries : List Country)
    {cdata cdata' : List (String × CountryChannels)}
    (h : List.Forall₂ (fun p q => p.1 = q.1 ∧ (p.2.data.getD []).Perm (q.2.data.getD []))
      cdata cdata') :
    (buildChannelOptions countries cdata).1.Perm (buildChannelOptions countries cdata').1 := by
  rw [buildChannelOptions_fst, buildChannelOptions_fst]
  induction h with
  | nil => exact List.Perm.refl _
  | cons hpq htail ih =>
    simp only [List.flatMap_cons]
    refine List.Perm.append ?_ ih
    obtain ⟨hid, hperm⟩ := hpq
    rw [hid]
    rcases countryMapFind countries _ with _ | c
    · exact List.Perm.refl _
    · exact (hperm.filter channelHasId).map _

/-- C7: the sorted option list is, as a multiset, exactly one (label, value)
entry per pair of a channels.json entry whose country id is known and a
channel of that entry carrying an identifier (a present, non-empty id field):
the label is the country display name, a dash separator and the channel
display name, and the value is the channel id joined to the channel display
name by a bar; channels without an identifier, and entries with an unknown
country id, produce no entry. -/
theorem options_one_per_channel (countries : List Country)
    (channels_data : List (String × CountryChannels)) :
    (createChannelOptions countries channels_data).Perm
      (channels_data.flatMap (fun p =>
        match countryMapFind countries p.1 with
        | some c => ((p.2.data.getD []).filter channelHasId).map
            (fun ch => (optionLabel c ch, optionValue ch))
        | none => [])) := by
  refine (List.perm_insertionSort optionLe _).trans ?_
  rw [buildChannelOptions_fst]

/-- C8: every channels.json entry whose country id is absent from the
countries list contributes no option entry, produces exactly its warning line,
and does not stop the transformation: the option list equals the contributions
of all remaining entries and the warning list has one line per unknown entry,
in program order. -/
theorem unknown_country_excluded (countries : List Country)
    (channels_data : List (String × CountryChannels)) :
    (buildChannelOptions countries channels_data).2 =
      (channels_data.filter (fun p => (countryMapFind countries p.1).isNone)).map
        (fun p => unknownCountryWarning p.1) ∧
    (buildChannelOptions countries channels_data).1 =
      channels_data.flatMap (fun p =>
        match countryMapFind countries p.1 with
        | some c => ((p.2.data.getD []).filter channelHasId).map
            (fun ch => (optionLabel c ch, optionValue ch))
        | none => []) ∧
    (∀ p ∈ channels_data, countryMapFind countries p.1 = none →
      unknownCountryWarning p.1 ∈ (buildChannelOptions countries channels_data).2) := by
  refine ⟨buildChannelOptions_snd countries channels_data,
    buildChannelOptions_fst countries channels_data, ?_⟩
  intro p hp hnone
  rw [buildChannelOptions_snd]
  exact List.mem_map_of_mem _ (List.mem_filter.mpr ⟨hp, by simp [hnone]⟩)

/-- Concrete single-country reference list for the C6 counterexample. -/
def cxCountries : List Country := [⟨"1", none, some "X"⟩]

/-- Channel with display name b and id 1. -/
def cxChannel1 : Channel := ⟨some "1", none, some "b"⟩

/-- Channel with display name B (differing from b only in case) and id 2. -/
def cxChannel2 : Channel := ⟨some "2", none, some "B"⟩

/-- The channels.json mapping with the two channels in one order. -/
def cxData : List (String × CountryChannels) := [("1", ⟨some [cxChannel1, cxChannel2], none⟩)]

/-- The same mapping with the channel order permuted. -/
def cxDataPerm : List (String × CountryChannels) :=
  [("1", ⟨some [cxChannel2, cxChannel1], none⟩)]

/-- C6 counterexample: the claim that the same sorted output results
regardless of input channel order is false when two options have labels equal
up to case: the stable sort keeps input order among equal keys, so permuting
the two channels with labels X - b and X - B permutes the output. -/
theorem options_order_dependent_counterexample :
    [cxChannel1, cxChannel2].Perm [cxChannel2, cxChannel1] ∧
    createChannelOptions cxCountries cxData ≠ createChannelOptions cxCountries cxDataPerm := by
  constructor
  · decide
  · decide

/-- C6 amended: the generated option list is sorted by label in
case-insensitive lexical order, and the multiset of generated options is
invariant under any permutation of the input channel order: the sorted
outputs for permuted inputs are permutations of each other (equal lists is
not guaranteed when two distinct options have case-insensitively equal
labels, as the sort is stable and stability for duplicates is not
guaranteed by the contract).  The lowered label order indeed puts apple
before Banana. -/
theorem options_sorted_and_order_invariant :
    (∀ (countries : List Country) (channels_data : List (String × CountryChannels)),
      (createChannelOptions countries channels_data).Pairwise optionLe) ∧
    (∀ (countries : List Country) (cdata cdata' : List (String × CountryChannels)),
      List.Forall₂ (fun p q => p.1 = q.1 ∧ (p.2.data.getD []).Perm (q.2.data.getD []))
        cdata cdata' →
      (createChannelOptions countries cdata).Perm (createChannelOptions countries cdata')) ∧
    pyStrLe (pyLower "apple") (pyLower "Banana") = true := by
  refine ⟨?_, ?_, by decide⟩
  · intro countries channels_data
    exact List.sorted_insertionSort optionLe (buildChannelOptions countries channels_data).1
  · intro countries cdata cdata' h
    exact (List.perm_insertionSort optionLe _).trans
      ((buildChannelOptions_perm_of_channels_perm countries h).trans
        (List.perm_insertionSort optionLe _).symm)

/-- Witness for C6 amended: sortedness and permutation-invariance at the
concrete permuted inputs of the counterexample. -/
theorem options_sorted_and_order_invariant_witness :
    (createChannelOptions cxCountries cxData).Pairwise optionLe ∧
    (createChannelOptions cxCountries cxData).Perm (createChannelOptions cxCountries cxDataPerm) := by
  refine ⟨options_sorted_and_order_invariant.1 cxCountries cxData,
    options_sorted_and_order_invariant.2.1 cxCountries cxData cxDataPerm ?_⟩
  exact List.Forall₂.cons ⟨rfl, by decide⟩ List.Forall₂.nil

end GenOptions
